import Mathlib

/-!
A verification development for luaiconv (src/luaiconv.c), a Lua binding to
the POSIX iconv character-set conversion facility.

The binding functions (Liconv_new, Liconv_close, Liconv_convert, Liconv,
Liconv_closure and the constant bindings of luaopen_iconv) are embedded
shallowly from the C source.  The external iconv library itself is not part
of the repository; following the specification it is modelled as a
deterministic transcoder that converts one character at a time, threading an
opaque shift-state, and reports illegal sequences (EILSEQ), incomplete
trailing sequences (EINVAL) and exhausted output room (E2BIG).
-/

namespace LuaIconv

/-- Lua strings are byte arrays; readable messages are embedded as the list
of their ASCII codes. -/
def asciiBytes (s : String) : List Nat := s.data.map Char.toNat

/-- Modelled from the spec: the platform errno code reported by the iconv
primitive for an incomplete trailing multi-byte sequence (Linux value of
EINVAL; only its distinctness from EILSEQ matters). -/
def EINVAL : Nat := 22

/-- Modelled from the spec: the platform errno code reported by the iconv
primitive for an illegal byte sequence (Linux value of EILSEQ). -/
def EILSEQ : Nat := 84

/-- Modelled from the spec: strerror(errno), an OS-derived human-readable
description of an error code.  Its exact text is irrelevant to the binding;
it only matters that it is a byte string derived from the code. -/
def strerror (e : Nat) : List Nat := asciiBytes ("system error " ++ Nat.repr e)

/-- A Lua value, as far as this binding manipulates them: nil, a (byte)
string, an integer, or the iconv_t userdata handle. -/
inductive LuaValue where
  | nil
  | str (bytes : List Nat)
  | int (n : Int)
  | handle (id : Nat)
deriving DecidableEq

/-- Modelled from the spec: the decision the underlying transcoding
primitive takes on a nonempty remaining input, in shift-state `s`: either
convert the next character, consuming `more + 1` input bytes, producing the
bytes `out` and moving to shift-state `next`, or stop on an illegal byte
sequence (errno EILSEQ), or stop on an incomplete trailing multi-byte
sequence (errno EINVAL). -/
inductive CharStep (σ : Type) where
  | ok (more : Nat) (out : List Nat) (next : σ)
  | invalid
  | incomplete
deriving DecidableEq

/-- Modelled from the spec: the behaviour of the external conversion library
for one open descriptor: an initial shift-state and a deterministic
character step function (receiving the state, the first remaining byte and
the bytes after it). -/
structure Codec (σ : Type) where
  init : σ
  step : σ → Nat → List Nat → CharStep σ

/-- Outcome of one call to the iconv primitive: converged (returns 0),
output room exhausted (errno E2BIG), or failure with an errno. -/
inductive IconvStatus where
  | ok
  | e2big
  | fail (errno : Nat)
deriving DecidableEq

/-- Result of one call to the iconv primitive: the descriptor's shift-state,
the input left unconsumed, the output bytes written, and the status. -/
structure IconvRes (σ : Type) where
  state : σ
  remaining : List Nat
  produced : List Nat
  status : IconvStatus
deriving DecidableEq

/-- Modelled from the spec: one call
`iconv(cd, &inbuf, &ibleft, &outbuf, &obleft)`.  The primitive converts
characters greedily for as long as they fit in the `obleft` bytes of output
room, updating the cursors; it stops with E2BIG when the next character's
output does not fit, or with EILSEQ / EINVAL on a bad input sequence, and
converges with return value 0 when the input is exhausted. -/
def iconvCall {σ : Type} (c : Codec σ) : σ → List Nat → Nat → IconvRes σ
  | s, [], _ => ⟨s, [], [], .ok⟩
  | s, b :: l, obleft =>
    match c.step s b l with
    | .invalid => ⟨s, b :: l, [], .fail EILSEQ⟩
    | .incomplete => ⟨s, b :: l, [], .fail EINVAL⟩
    | .ok more out s1 =>
      if out.length ≤ obleft then
        let r := iconvCall c s1 ((b :: l).drop (more + 1)) (obleft - out.length)
        ⟨r.state, r.remaining, out ++ r.produced, r.status⟩
      else ⟨s, b :: l, [], .e2big⟩
termination_by _ input _ => input.length
decreasing_by simp [List.length_drop]; omega

/-- Result of the reference (unbounded output room) conversion: final
shift-state, all output produced before the stopping point, and the errno
of the failure, if any. -/
structure PureRes (σ : Type) where
  state : σ
  out : List Nat
  err : Option Nat
deriving DecidableEq

/-- Reference conversion: the transcoding primitive run with unbounded
output room, i.e. a one-shot conversion with an arbitrarily large output
buffer.  Not part of the C source; used to state what the chunked loop of
Liconv_convert computes. -/
def pureConvert {σ : Type} (c : Codec σ) : σ → List Nat → PureRes σ
  | s, [] => ⟨s, [], none⟩
  | s, b :: l =>
    match c.step s b l with
    | .invalid => ⟨s, [], some EILSEQ⟩
    | .incomplete => ⟨s, [], some EINVAL⟩
    | .ok more out s1 =>
      let r := pureConvert c s1 ((b :: l).drop (more + 1))
      ⟨r.state, out ++ r.out, r.err⟩
termination_by _ input => input.length
decreasing_by simp [List.length_drop]; omega

/-- The scratch output chunk size of the Lua auxiliary buffer
(LUAL_BUFFERSIZE, a platform constant; the spec calls it an 8KB-class
implementation constant). -/
def LUAL_BUFFERSIZE : Nat := 8192

/-- Outcome of the conversion loop: the accumulated output on success, the
accumulated output with the errno and the state the library left on
failure, or divergence (the C do-while never terminates). -/
inductive ConvOutcome (σ : Type) where
  | success (out : List Nat) (state : σ)
  | failure (out : List Nat) (errno : Nat) (state : σ)
  | diverge
deriving DecidableEq

/-- The do-while loop of Liconv_convert (src/luaiconv.c lines 93-110):
call iconv with the remaining input and a scratch chunk of `bufsize` bytes,
append what was produced to the accumulator (line 96, before the error
check), grab a fresh chunk and retry on E2BIG (lines 98-100), stop with the
errno on any other failure (lines 101-108), and exit the loop when iconv
returns 0.  The fuel argument bounds the number of iterations; the caller
supplies a value proved sufficient whenever the C loop terminates (each
iteration that continues consumes at least one input byte). -/
def convertLoop {σ : Type} (c : Codec σ) (bufsize : Nat) :
    Nat → σ → List Nat → List Nat → ConvOutcome σ
  | 0, _, _, _ => .diverge
  | fuel + 1, s, input, acc =>
    let r := iconvCall c s input bufsize
    let acc1 := acc ++ r.produced
    match r.status with
    | .ok => .success acc1 r.state
    | .e2big => convertLoop c bufsize fuel r.state r.remaining acc1
    | .fail e => .failure acc1 e r.state

/-- The message pushed by Liconv_convert for a closed handle
(src/luaiconv.c line 86). -/
def invalidHandleMsg : List Nat := asciiBytes ("invalid iconv handle")

/-- The Lua stack (top first) after the error-path pushes of Liconv_convert
(src/luaiconv.c lines 102-106): on top of `base` (the values below the
buffer result), push the accumulated output string (luaL_pushresult), nil,
the strerror message, a copy of the value at index -3 (lua_pushvalue), and
the errno integer. -/
def errStack (base : List LuaValue) (out : List Nat) (e : Nat) : List LuaValue :=
  let s2 := LuaValue.str (strerror e) :: LuaValue.nil :: LuaValue.str out :: base
  LuaValue.int e :: s2.getD 2 LuaValue.nil :: s2

/-- A C function returning `n` hands Lua the top `n` stack values, in
bottom-to-top order. -/
def luaReturn (n : Nat) (stack : List LuaValue) : List LuaValue :=
  (stack.take n).reverse

/-- Result of calling one of the binding's Lua entry points: a raised Lua
argument error, a never-terminating call, or a normal return carrying the
returned values and the descriptor slot content after the call. -/
inductive CallRes (σ : Type) where
  | raised
  | diverged
  | returns (vals : List LuaValue) (cd : Option σ)
deriving DecidableEq

/-- Liconv_convert (src/luaiconv.c lines 79-115).  The descriptor slot `cd`
is `none` when the C pointer is NULL.  A NULL descriptor returns
(nil, "invalid iconv handle") at once (lines 84-88).  Otherwise the chunked
loop runs; on success the descriptor is put back into its initial
shift-state by the extra `iconv(cd, NULL, NULL, NULL, NULL)` call (line
112) and the accumulated string is the single return value; on failure the
stack is built as on lines 102-106 and the top four values are returned.
`base` holds the stack values living below the buffer result (the
function's arguments).  The fuel for the loop is sufficient whenever the C
loop terminates, since every continuing iteration consumes input. -/
def Liconv_convert {σ : Type} (c : Codec σ) (cd : Option σ)
    (base : List LuaValue) (input : List Nat) : CallRes σ :=
  match cd with
  | none => .returns [.nil, .str invalidHandleMsg] none
  | some s =>
    match convertLoop c LUAL_BUFFERSIZE (input.length + 1) s input [] with
    | .diverge => .diverged
    | .success out _ => .returns [.str out] (some c.init)
    | .failure out e sF => .returns (luaReturn 4 (errStack base out e)) (some sF)

/-- luaL_checkstring / luaL_checklstring: accept a string argument (numbers
coerce to their decimal text); any other value raises an argument error
(modelled as `none`). -/
def checkstring : LuaValue → Option (List Nat)
  | .str b => some b
  | .int n => some (asciiBytes (toString n))
  | _ => none

/-- Liconv (src/luaiconv.c lines 117-122): the `iconv` method.  Argument 1
must be the iconv_t userdata (luaL_checkudata), argument 2 a string; then
Liconv_convert runs with the descriptor stored in the userdata.  The stack
below the buffer holds the two arguments. -/
def Liconv {σ : Type} (c : Codec σ) (cd : Option σ)
    (handleV inputV : LuaValue) : CallRes σ :=
  match handleV with
  | .handle _ =>
    match checkstring inputV with
    | none => .raised
    | some input => Liconv_convert c cd [inputV, handleV] input
  | _ => .raised

/-- Liconv_closure (src/luaiconv.c lines 124-129): the converter closure
returned by the callable-module form.  The descriptor is read from the
closure upvalue at call time; argument 1 is the input string. -/
def Liconv_closure {σ : Type} (c : Codec σ) (cd : Option σ)
    (inputV : LuaValue) : CallRes σ :=
  match checkstring inputV with
  | none => .raised
  | some input => Liconv_convert c cd [inputV] input

/-- Result of Liconv_close: the descriptor slot after the call, whether
iconv_close was invoked on the library, and the Lua values returned. -/
structure CloseRes (σ : Type) where
  cd : Option σ
  released : Bool
  results : List LuaValue
deriving DecidableEq

/-- Liconv_close (src/luaiconv.c lines 69-77):
`if (*cd != NULL && iconv_close(*cd) == 0) *cd = NULL; return 0;`.
`closeOk` models whether the external iconv_close call succeeds.  A NULL
descriptor short-circuits the conjunction, so nothing is released; a failed
release leaves the slot unchanged.  The function returns zero Lua values in
every case. -/
def Liconv_close {σ : Type} (closeOk : Bool) (cd : Option σ) : CloseRes σ :=
  match cd with
  | none => ⟨none, false, []⟩
  | some s => if closeOk then ⟨none, true, []⟩ else ⟨some s, true, []⟩

/-- Modelled from the spec: the environment Liconv_new calls into —
iconv_open as a lookup in the library's encoding registry (`none` models
the (iconv_t)(-1) failure return), and the errno the failed lookup left. -/
structure OpenEnv where
  iconv_open : List Nat → List Nat → Option Nat
  errno : Nat

/-- Liconv_new (src/luaiconv.c lines 54-67): check both arguments are
strings (luaL_checkstring; a failure raises, modelled as `none`), hand them
to iconv_open, and either wrap the descriptor in a fresh userdata or return
(nil, strerror(errno)). -/
def Liconv_new (env : OpenEnv) (arg1 arg2 : LuaValue) : Option (List LuaValue) :=
  match checkstring arg1 with
  | none => none
  | some tocode =>
    match checkstring arg2 with
    | none => none
    | some fromcode =>
      match env.iconv_open tocode fromcode with
      | some cd => some [LuaValue.handle cd]
      | none => some [LuaValue.nil, LuaValue.str (strerror env.errno)]

/-- The constant bound to the field "ERROR_INCOMPLETE" by luaopen_iconv
(src/luaiconv.c lines 195-196): the C code pushes EILSEQ. -/
def ERROR_INCOMPLETE : Nat := EILSEQ

/-- The constant bound to the field "ERROR_INVALID" by luaopen_iconv
(src/luaiconv.c lines 197-198): the C code pushes EINVAL. -/
def ERROR_INVALID : Nat := EINVAL

/-- Every character the codec can convert produces at most `bufsize` output
bytes.  This holds of every real encoding for an 8KB-class chunk (a
character's encoding is a few bytes); when it fails the C do-while loop of
Liconv_convert itself never terminates, repeating a progress-free E2BIG
iteration forever. -/
def charBound {σ : Type} (c : Codec σ) (bufsize : Nat) : Prop :=
  ∀ s b l more out s1, c.step s b l = .ok more out s1 → out.length ≤ bufsize

/-- A stateless codec converting every byte to itself (e.g. ASCII to ASCII). -/
def idCodec : Codec Unit := ⟨(), fun _ b _ => .ok 0 [b] ()⟩

/-- A stateless codec converting every input byte to two output bytes (an
expanding conversion, such as a single-byte encoding into a two-byte one). -/
def doubleCodec : Codec Unit := ⟨(), fun _ b _ => .ok 0 [b, b] ()⟩

/-- A codec whose input starts with an incomplete trailing multi-byte
sequence (e.g. UTF-8 to UTF-8 handed the first two bytes of a three-byte
character): the primitive stops at once with EINVAL. -/
def truncCodec : Codec Unit := ⟨(), fun _ _ _ => .incomplete⟩

/-- A codec whose input starts with an illegal byte sequence: the primitive
stops at once with EILSEQ. -/
def badCodec : Codec Unit := ⟨(), fun _ _ _ => .invalid⟩

/-- A codec that copies bytes through until it meets the byte 255, which it
rejects as an illegal sequence: conversion fails midway with output already
produced. -/
def stopCodec : Codec Unit := ⟨(), fun _ b _ => if b = 255 then .invalid else .ok 0 [b] ()⟩

/-- An open environment whose registry accepts every name pair, returning
descriptor 7 (GNU iconv, for instance, accepts the empty encoding name as
the locale encoding). -/
def acceptAllEnv : OpenEnv := ⟨fun _ _ => some 7, EINVAL⟩

/-- An open environment whose registry knows no encoding name at all. -/
def rejectAllEnv : OpenEnv := ⟨fun _ _ => none, EINVAL⟩

/-! Unfolding lemmas: one lemma per case of the iconv primitive model and of
the unbounded-buffer reference conversion. -/

theorem iconvCall_nil {σ : Type} (c : Codec σ) (s : σ) (obleft : Nat) :
    iconvCall c s [] obleft = ⟨s, [], [], .ok⟩ := iconvCall.eq_1 c s obleft

theorem iconvCall_cons_invalid {σ : Type} {c : Codec σ} {s : σ} {b : Nat} {l : List Nat}
    (obleft : Nat) (h : c.step s b l = .invalid) :
    iconvCall c s (b :: l) obleft = ⟨s, b :: l, [], .fail EILSEQ⟩ := by
  rw [iconvCall.eq_2, h]

theorem iconvCall_cons_incomplete {σ : Type} {c : Codec σ} {s : σ} {b : Nat} {l : List Nat}
    (obleft : Nat) (h : c.step s b l = .incomplete) :
    iconvCall c s (b :: l) obleft = ⟨s, b :: l, [], .fail EINVAL⟩ := by
  rw [iconvCall.eq_2, h]

theorem iconvCall_cons_fit {σ : Type} {c : Codec σ} {s : σ} {b : Nat} {l : List Nat}
    {obleft more : Nat} {out : List Nat} {s1 : σ}
    (h : c.step s b l = .ok more out s1) (hfit : out.length ≤ obleft) :
    iconvCall c s (b :: l) obleft =
      ⟨(iconvCall c s1 ((b :: l).drop (more + 1)) (obleft - out.length)).state,
       (iconvCall c s1 ((b :: l).drop (more + 1)) (obleft - out.length)).remaining,
       out ++ (iconvCall c s1 ((b :: l).drop (more + 1)) (obleft - out.length)).produced,
       (iconvCall c s1 ((b :: l).drop (more + 1)) (obleft - out.length)).status⟩ := by
  rw [iconvCall.eq_2, h]
  simp [hfit]

theorem iconvCall_cons_nofit {σ : Type} {c : Codec σ} {s : σ} {b : Nat} {l : List Nat}
    {obleft more : Nat} {out : List Nat} {s1 : σ}
    (h : c.step s b l = .ok more out s1) (hfit : ¬ out.length ≤ obleft) :
    iconvCall c s (b :: l) obleft = ⟨s, b :: l, [], .e2big⟩ := by
  rw [iconvCall.eq_2, h]
  simp [hfit]

theorem pureConvert_nil {σ : Type} (c : Codec σ) (s : σ) :
    pureConvert c s [] = ⟨s, [], none⟩ := pureConvert.eq_1 c s

theorem pureConvert_cons_invalid {σ : Type} {c : Codec σ} {s : σ} {b : Nat} {l : List Nat}
    (h : c.step s b l = .invalid) :
    pureConvert c s (b :: l) = ⟨s, [], some EILSEQ⟩ := by
  rw [pureConvert.eq_2, h]

theorem pureConvert_cons_incomplete {σ : Type} {c : Codec σ} {s : σ} {b : Nat} {l : List Nat}
    (h : c.step s b l = .incomplete) :
    pureConvert c s (b :: l) = ⟨s, [], some EINVAL⟩ := by
  rw [pureConvert.eq_2, h]

theorem pureConvert_cons_ok {σ : Type} {c : Codec σ} {s : σ} {b : Nat} {l : List Nat}
    {more : Nat} {out : List Nat} {s1 : σ} (h : c.step s b l = .ok more out s1) :
    pureConvert c s (b :: l) =
      ⟨(pureConvert c s1 ((b :: l).drop (more + 1))).state,
       out ++ (pureConvert c s1 ((b :: l).drop (more + 1))).out,
       (pureConvert c s1 ((b :: l).drop (more + 1))).err⟩ := by
  rw [pureConvert.eq_2, h]

/-- The iconv primitive never invents input: the remaining input of a call
is a suffix of what it was given, in particular no longer than it. -/
theorem iconvCall_remaining_le {σ : Type} (c : Codec σ) :
    ∀ (n : Nat) (input : List Nat), input.length ≤ n → ∀ (s : σ) (obleft : Nat),
      (iconvCall c s input obleft).remaining.length ≤ input.length := by
  intro n
  induction n with
  | zero =>
    intro input hlen s obleft
    have h0 : input = [] := List.eq_nil_of_length_eq_zero (Nat.le_zero.mp hlen)
    subst h0
    simp [iconvCall_nil]
  | succ n ih =>
    intro input hlen s obleft
    cases input with
    | nil => simp [iconvCall_nil]
    | cons b l =>
      cases hstep : c.step s b l with
      | invalid => simp [iconvCall_cons_invalid obleft hstep]
      | incomplete => simp [iconvCall_cons_incomplete obleft hstep]
      | ok more out s1 =>
        by_cases hfit : out.length ≤ obleft
        · rw [iconvCall_cons_fit hstep hfit]
          have hrec := ih ((b :: l).drop (more + 1))
            (by simp at hlen ⊢; omega) s1 (obleft - out.length)
          simp [List.length_drop] at hrec ⊢
          omega
        · simp [iconvCall_cons_nofit hstep hfit]

/-- A call of the primitive that converges computed exactly what the
unbounded-buffer reference conversion computes. -/
theorem iconvCall_pure_ok {σ : Type} (c : Codec σ) :
    ∀ (n : Nat) (input : List Nat), input.length ≤ n → ∀ (s : σ) (obleft : Nat),
      (iconvCall c s input obleft).status = .ok →
      pureConvert c s input =
        ⟨(iconvCall c s input obleft).state, (iconvCall c s input obleft).produced, none⟩ := by
  intro n
  induction n with
  | zero =>
    intro input hlen s obleft _
    have h0 : input = [] := List.eq_nil_of_length_eq_zero (Nat.le_zero.mp hlen)
    subst h0
    simp [iconvCall_nil, pureConvert_nil]
  | succ n ih =>
    intro input hlen s obleft hst
    cases input with
    | nil => simp [iconvCall_nil, pureConvert_nil]
    | cons b l =>
      cases hstep : c.step s b l with
      | invalid => rw [iconvCall_cons_invalid obleft hstep] at hst; simp at hst
      | incomplete => rw [iconvCall_cons_incomplete obleft hstep] at hst; simp at hst
      | ok more out s1 =>
        by_cases hfit : out.length ≤ obleft
        · rw [iconvCall_cons_fit hstep hfit] at hst ⊢
          simp only at hst
          rw [pureConvert_cons_ok hstep,
            ih ((b :: l).drop (more + 1)) (by simp at hlen ⊢; omega) s1 (obleft - out.length) hst]
        · rw [iconvCall_cons_nofit hstep hfit] at hst
          simp at hst

/-- A call of the primitive that fails with errno `e` stopped exactly where
the unbounded-buffer reference conversion stops, having produced exactly
the reference's output so far: room for output never alters where a
conversion fails. -/
theorem iconvCall_pure_fail {σ : Type} (c : Codec σ) :
    ∀ (n : Nat) (input : List Nat), input.length ≤ n → ∀ (s : σ) (obleft e : Nat),
      (iconvCall c s input obleft).status = .fail e →
      pureConvert c s input =
        ⟨(iconvCall c s input obleft).state, (iconvCall c s input obleft).produced, some e⟩ := by
  intro n
  induction n with
  | zero =>
    intro input hlen s obleft e hst
    have h0 : input = [] := List.eq_nil_of_length_eq_zero (Nat.le_zero.mp hlen)
    subst h0
    rw [iconvCall_nil] at hst
    simp at hst
  | succ n ih =>
    intro input hlen s obleft e hst
    cases input with
    | nil => rw [iconvCall_nil] at hst; simp at hst
    | cons b l =>
      cases hstep : c.step s b l with
      | invalid =>
        rw [iconvCall_cons_invalid obleft hstep] at hst ⊢
        simp only at hst
        rw [pureConvert_cons_invalid hstep]
        injection hst with h2
        subst h2
        simp
      | incomplete =>
        rw [iconvCall_cons_incomplete obleft hstep] at hst ⊢
        simp only at hst
        rw [pureConvert_cons_incomplete hstep]
        injection hst with h2
        subst h2
        simp
      | ok more out s1 =>
        by_cases hfit : out.length ≤ obleft
        · rw [iconvCall_cons_fit hstep hfit] at hst ⊢
          simp only at hst
          rw [pureConvert_cons_ok hstep,
            ih ((b :: l).drop (more + 1)) (by simp at hlen ⊢; omega) s1 (obleft - out.length) e hst]
        · rw [iconvCall_cons_nofit hstep hfit] at hst
          simp at hst

/-- A call of the primitive that ran out of output room made a clean stop:
resuming the reference conversion from the state and input where it stopped
yields exactly the reference conversion of the whole input, with the
produced bytes as the first part of the output. -/
theorem iconvCall_pure_e2big {σ : Type} (c : Codec σ) :
    ∀ (n : Nat) (input : List Nat), input.length ≤ n → ∀ (s : σ) (obleft : Nat),
      (iconvCall c s input obleft).status = .e2big →
      pureConvert c s input =
        ⟨(pureConvert c (iconvCall c s input obleft).state
            (iconvCall c s input obleft).remaining).state,
         (iconvCall c s input obleft).produced ++
           (pureConvert c (iconvCall c s input obleft).state
             (iconvCall c s input obleft).remaining).out,
         (pureConvert c (iconvCall c s input obleft).state
           (iconvCall c s input obleft).remaining).err⟩ := by
  intro n
  induction n with
  | zero =>
    intro input hlen s obleft hst
    have h0 : input = [] := List.eq_nil_of_length_eq_zero (Nat.le_zero.mp hlen)
    subst h0
    rw [iconvCall_nil] at hst
    simp at hst
  | succ n ih =>
    intro input hlen s obleft hst
    cases input with
    | nil => rw [iconvCall_nil] at hst; simp at hst
    | cons b l =>
      cases hstep : c.step s b l with
      | invalid => rw [iconvCall_cons_invalid obleft hstep] at hst; simp at hst
      | incomplete => rw [iconvCall_cons_incomplete obleft hstep] at hst; simp at hst
      | ok more out s1 =>
        by_cases hfit : out.length ≤ obleft
        · rw [iconvCall_cons_fit hstep hfit] at hst ⊢
          simp only at hst
          rw [pureConvert_cons_ok hstep,
            ih ((b :: l).drop (more + 1)) (by simp at hlen ⊢; omega) s1 (obleft - out.length) hst]
          simp
        · rw [iconvCall_cons_nofit hstep hfit] at hst ⊢
          rw [pureConvert_cons_ok hstep]
          simp

/-- Progress: a primitive call that was handed at least a whole scratch
chunk of output room, for a codec whose characters each fit the chunk, can
only run out of room after consuming at least one input byte.  This is the
reason the fuel `input.length + 1` of Liconv_convert covers every
terminating run of the C do-while loop. -/
theorem iconvCall_progress {σ : Type} (c : Codec σ) (bufsize : Nat)
    (hchar : charBound c bufsize) (input : List Nat) (s : σ) (obleft : Nat)
    (hob : bufsize ≤ obleft) (hst : (iconvCall c s input obleft).status = .e2big) :
    (iconvCall c s input obleft).remaining.length < input.length := by
  cases input with
  | nil => rw [iconvCall_nil] at hst; simp at hst
  | cons b l =>
    cases hstep : c.step s b l with
    | invalid => rw [iconvCall_cons_invalid obleft hstep] at hst; simp at hst
    | incomplete => rw [iconvCall_cons_incomplete obleft hstep] at hst; simp at hst
    | ok more out s1 =>
      have hfit : out.length ≤ obleft := le_trans (hchar s b l more out s1 hstep) hob
      rw [iconvCall_cons_fit hstep hfit]
      have hrem := iconvCall_remaining_le c ((b :: l).drop (more + 1)).length
        ((b :: l).drop (more + 1)) le_rfl s1 (obleft - out.length)
      simp [List.length_drop] at hrem ⊢
      omega

/-- The chunked do-while loop of Liconv_convert computes, for any chunk size
the codec's characters fit in and any sufficient fuel, exactly the
unbounded-buffer reference conversion: the accumulated output, the errno if
any, and the final shift-state all agree. -/
theorem convertLoop_pure {σ : Type} (c : Codec σ) (bufsize : Nat)
    (hchar : charBound c bufsize) :
    ∀ (fuel : Nat) (s : σ) (input : List Nat) (acc : List Nat), input.length < fuel →
      convertLoop c bufsize fuel s input acc =
        match (pureConvert c s input).err with
        | none => .success (acc ++ (pureConvert c s input).out) (pureConvert c s input).state
        | some e => .failure (acc ++ (pureConvert c s input).out) e (pureConvert c s input).state := by
  intro fuel
  induction fuel with
  | zero => intro s input acc h; omega
  | succ n ih =>
    intro s input acc hlen
    show (match (iconvCall c s input bufsize).status with
      | .ok => ConvOutcome.success (acc ++ (iconvCall c s input bufsize).produced)
          (iconvCall c s input bufsize).state
      | .e2big => convertLoop c bufsize n (iconvCall c s input bufsize).state
          (iconvCall c s input bufsize).remaining (acc ++ (iconvCall c s input bufsize).produced)
      | .fail e => ConvOutcome.failure (acc ++ (iconvCall c s input bufsize).produced) e
          (iconvCall c s input bufsize).state) = _
    cases hst : (iconvCall c s input bufsize).status with
    | ok =>
      rw [iconvCall_pure_ok c input.length input le_rfl s bufsize hst]
    | fail e =>
      rw [iconvCall_pure_fail c input.length input le_rfl s bufsize e hst]
    | e2big =>
      have hprog := iconvCall_progress c bufsize hchar input s bufsize le_rfl hst
      rw [ih (iconvCall c s input bufsize).state (iconvCall c s input bufsize).remaining
        (acc ++ (iconvCall c s input bufsize).produced) (by omega)]
      rw [iconvCall_pure_e2big c input.length input le_rfl s bufsize hst]
      cases (pureConvert c (iconvCall c s input bufsize).state
          (iconvCall c s input bufsize).remaining).err with
      | none => simp
      | some e => simp

/-- Every character stopCodec converts produces one byte, which fits the
scratch chunk. -/
theorem stopCodec_charBound : charBound stopCodec LUAL_BUFFERSIZE := by
  intro s b l more out s1 h
  simp only [stopCodec] at h
  split at h
  · exact absurd h (by simp)
  · injection h with h1 h2 h3
    subst h2
    simp [LUAL_BUFFERSIZE]

/-- Every character doubleCodec converts produces two bytes, which fit the
scratch chunk. -/
theorem doubleCodec_charBound : charBound doubleCodec LUAL_BUFFERSIZE := by
  intro s b l more out s1 h
  simp only [doubleCodec] at h
  injection h with h1 h2 h3
  subst h2
  simp [LUAL_BUFFERSIZE]

/-- C1: the claim states ERROR_INCOMPLETE carries the incomplete-sequence
code (the EINVAL-equivalent) and ERROR_INVALID the illegal-sequence code
(the EILSEQ-equivalent), so a conversion failing on a truncated trailing
multi-byte sequence returns ERROR_INCOMPLETE.  The code has the two
bindings swapped (src/luaiconv.c lines 195-198 push EILSEQ as
ERROR_INCOMPLETE and EINVAL as ERROR_INVALID), contradicting the constant
names' own meaning: a conversion failing on a truncated sequence returns
the errno EINVAL, which is ERROR_INVALID and differs from
ERROR_INCOMPLETE. -/
theorem c1_error_constants_swapped :
    Liconv_convert truncCodec (some ()) [LuaValue.str [226, 130], LuaValue.handle 0] [226, 130] =
      .returns [.nil, .str (strerror EINVAL), .str [], .int EINVAL] (some ())
    ∧ ERROR_INCOMPLETE = EILSEQ ∧ ERROR_INVALID = EINVAL ∧ EINVAL ≠ ERROR_INCOMPLETE := by
  refine ⟨?_, rfl, rfl, by decide⟩
  simp [Liconv_convert, convertLoop, iconvCall, truncCodec, LUAL_BUFFERSIZE, errStack, luaReturn]

/-- C2, counterexample: a convert call failing with a library-surfaced
error (an illegal sequence, handle object `handle 1`) returns the tuple
(nil, message, accumulated output string, code): its third component is
the empty output string, not the handle object the claim promises. -/
theorem c2_third_value_is_output_not_handle :
    Liconv badCodec (some ()) (LuaValue.handle 1) (LuaValue.str [171]) =
      .returns [.nil, .str (strerror EILSEQ), .str [], .int EILSEQ] (some ())
    ∧ LuaValue.str [] ≠ LuaValue.handle 1 := by
  refine ⟨?_, by decide⟩
  simp [Liconv, checkstring, Liconv_convert, convertLoop, iconvCall, badCodec,
    LUAL_BUFFERSIZE, errStack, luaReturn]

/-- C2, amended: every convert call that fails with a library-surfaced
error returns the four values (nil, error message, accumulated output
so far, numeric error code) — the third component is the output string
(the value `lua_pushvalue(L, -3)` copies on line 105 of src/luaiconv.c),
not the handle object. -/
theorem c2_error_tuple_shape {σ : Type} (c : Codec σ) (s : σ) (base : List LuaValue)
    (input P : List Nat) (e : Nat) (sF : σ)
    (h : convertLoop c LUAL_BUFFERSIZE (input.length + 1) s input [] = .failure P e sF) :
    Liconv_convert c (some s) base input =
      .returns [.nil, .str (strerror e), .str P, .int e] (some sF) := by
  simp [Liconv_convert, h, errStack, luaReturn]

/-- C2, witness: the amended error-tuple shape at a concrete failing
conversion. -/
theorem c2_error_tuple_shape_witness :
    convertLoop badCodec LUAL_BUFFERSIZE (([171] : List Nat).length + 1) () [171] [] =
      .failure [] EILSEQ ()
    ∧ Liconv_convert badCodec (some ()) [] [171] =
      .returns [.nil, .str (strerror EILSEQ), .str [], .int EILSEQ] (some ()) := by
  have h : convertLoop badCodec LUAL_BUFFERSIZE (([171] : List Nat).length + 1) () [171] [] =
      .failure [] EILSEQ () := by
    simp [convertLoop, iconvCall, badCodec, LUAL_BUFFERSIZE]
  exact ⟨h, c2_error_tuple_shape badCodec () [] [171] [] EILSEQ () h⟩

/-- C3: convert on a closed handle (NULL descriptor) returns immediately
with exactly two values, nil and the fixed message "invalid iconv handle":
no output string, no numeric code — unlike library-surfaced failures,
which return four values ending in the code. -/
theorem c3_closed_handle_error {σ : Type} (c : Codec σ) (base : List LuaValue)
    (input : List Nat) :
    Liconv_convert c none base input = .returns [.nil, .str invalidHandleMsg] none := rfl

/-- C4: when a conversion fails with a library-surfaced error, the returned
output string is exactly the output of the reference (unbounded-buffer)
conversion up to the failure point — everything produced before the
failure, the final short chunk included, accompanies the message and the
numeric code; nothing is discarded. -/
theorem c4_no_silent_discard {σ : Type} (c : Codec σ) (s : σ) (base : List LuaValue)
    (input : List Nat) (e : Nat)
    (hchar : charBound c LUAL_BUFFERSIZE)
    (hfail : (pureConvert c s input).err = some e) :
    Liconv_convert c (some s) base input =
      .returns [.nil, .str (strerror e), .str (pureConvert c s input).out, .int e]
        (some (pureConvert c s input).state) := by
  have hl := convertLoop_pure c LUAL_BUFFERSIZE hchar (input.length + 1) s input [] (by omega)
  rw [hfail] at hl
  simp only [List.nil_append] at hl
  simp [Liconv_convert, hl, errStack, luaReturn]

/-- C4, witness: a conversion that copies the byte 1 and then fails on the
byte 255 returns the already-produced output alongside the error. -/
theorem c4_no_silent_discard_witness :
    charBound stopCodec LUAL_BUFFERSIZE
    ∧ (pureConvert stopCodec () [1, 255]).err = some EILSEQ
    ∧ Liconv_convert stopCodec (some ()) [] [1, 255] =
        .returns [.nil, .str (strerror EILSEQ), .str (pureConvert stopCodec () [1, 255]).out,
          .int EILSEQ] (some (pureConvert stopCodec () [1, 255]).state) := by
  have he : (pureConvert stopCodec () [1, 255]).err = some EILSEQ := by
    simp [pureConvert, stopCodec]
  exact ⟨stopCodec_charBound, he,
    c4_no_silent_discard stopCodec () [] [1, 255] EILSEQ stopCodec_charBound he⟩

/-- C5: once a handle is closed (descriptor slot NULL), a further close is
a no-op — it returns normally with no results and never invokes the
library's release again — and a convert through the handle method as well
as through a converter closure bound to the descriptor returns the
HandleClosed error instead of touching freed resources. -/
theorem c5_closed_is_inert {σ : Type} (c : Codec σ) (closeOk : Bool) (i : Nat)
    (bytes : List Nat) :
    Liconv_close closeOk (none : Option σ) = ⟨none, false, []⟩
    ∧ Liconv c none (.handle i) (.str bytes) = .returns [.nil, .str invalidHandleMsg] none
    ∧ Liconv_closure c none (.str bytes) = .returns [.nil, .str invalidHandleMsg] none := by
  refine ⟨rfl, ?_, ?_⟩ <;> simp [Liconv, Liconv_closure, checkstring, Liconv_convert]

/-- C6: running out of scratch-chunk room is not an error: whenever a
one-shot conversion with an output buffer of any size converges, the
chunked loop succeeds and returns exactly the one-shot output, however
many chunk boundaries it crosses. -/
theorem c6_chunking_invisible {σ : Type} (c : Codec σ) (s : σ) (base : List LuaValue)
    (input : List Nat) (bigbuf : Nat)
    (hchar : charBound c LUAL_BUFFERSIZE)
    (hone : (iconvCall c s input bigbuf).status = .ok) :
    Liconv_convert c (some s) base input =
      .returns [.str (iconvCall c s input bigbuf).produced] (some c.init) := by
  have hp := iconvCall_pure_ok c input.length input le_rfl s bigbuf hone
  have hl := convertLoop_pure c LUAL_BUFFERSIZE hchar (input.length + 1) s input [] (by omega)
  rw [hp] at hl
  simp only [List.nil_append] at hl
  simp [Liconv_convert, hl]

/-- C6, witness: an output-doubling conversion of [1, 2, 3] matches the
one-shot conversion with a 100-byte buffer. -/
theorem c6_chunking_invisible_witness :
    charBound doubleCodec LUAL_BUFFERSIZE
    ∧ (iconvCall doubleCodec () [1, 2, 3] 100).status = .ok
    ∧ Liconv_convert doubleCodec (some ()) [] [1, 2, 3] =
        .returns [.str (iconvCall doubleCodec () [1, 2, 3] 100).produced] (some doubleCodec.init) := by
  have hone : (iconvCall doubleCodec () [1, 2, 3] 100).status = .ok := by
    simp [iconvCall, doubleCodec]
  exact ⟨doubleCodec_charBound, hone,
    c6_chunking_invisible doubleCodec () [] [1, 2, 3] 100 doubleCodec_charBound hone⟩

/-- C7: a successful conversion — and only a successful one; a failing
conversion returns the state the library left — ends with the extra
`iconv(cd, NULL, NULL, NULL, NULL)` call of line 112, leaving the
descriptor in its initial shift-state; hence after a successful conversion
on a fresh handle, the handle is indistinguishable from a freshly opened
one, and any second conversion behaves exactly as on a fresh handle. -/
theorem c7_reset_only_on_success {σ : Type} (c : Codec σ) (base1 base2 : List LuaValue)
    (i1 i2 : List Nat) (out1 : List Nat) (cd1 : Option σ)
    (h : Liconv_convert c (some c.init) base1 i1 = .returns [.str out1] cd1) :
    cd1 = some c.init
    ∧ Liconv_convert c cd1 base2 i2 = Liconv_convert c (some c.init) base2 i2 := by
  have hcd : cd1 = some c.init := by
    rw [Liconv_convert] at h
    cases hloop : convertLoop c LUAL_BUFFERSIZE (i1.length + 1) c.init i1 [] with
    | diverge => rw [hloop] at h; simp at h
    | success out st => rw [hloop] at h; simp at h; exact h.2.symm
    | failure out e st =>
      rw [hloop] at h
      simp [luaReturn, errStack] at h
  exact ⟨hcd, by rw [hcd]⟩

/-- C7, witness: after a successful identity conversion the handle state is
the initial one and a second conversion equals a fresh-handle conversion. -/
theorem c7_reset_only_on_success_witness :
    Liconv_convert idCodec (some idCodec.init) [] [5] = .returns [.str [5]] (some ())
    ∧ (some () : Option Unit) = some idCodec.init
    ∧ Liconv_convert idCodec (some () : Option Unit) [] [9] =
        Liconv_convert idCodec (some idCodec.init) [] [9] := by
  have h : Liconv_convert idCodec (some idCodec.init) [] [5] = .returns [.str [5]] (some ()) := by
    simp [Liconv_convert, convertLoop, iconvCall, idCodec, LUAL_BUFFERSIZE]
  have hc := c7_reset_only_on_success idCodec [] [] [5] [9] [5] (some ()) h
  exact ⟨h, hc.1, hc.2⟩

/-- C8, counterexample: the code has no non-empty check — luaL_checkstring
accepts the empty string — so an open call with empty encoding names is
not rejected before the library: against a registry that accepts the empty
name (as GNU iconv does, meaning the locale encoding) it reaches the
registry and returns a handle. -/
theorem c8_empty_name_reaches_registry :
    Liconv_new acceptAllEnv (LuaValue.str []) (LuaValue.str []) = some [LuaValue.handle 7]
    ∧ some [LuaValue.handle 7] ≠ (none : Option (List LuaValue)) := by
  refine ⟨?_, by decide⟩
  simp [Liconv_new, checkstring, acceptAllEnv]

/-- C8, amended: open validates its two arguments only to the extent that
each is a string (a non-string raises an argument error); every string,
the empty string included, is passed through to the library, and success
is decided entirely by the library's encoding registry. -/
theorem c8_only_string_check (env : OpenEnv) (s1 s2 : List Nat) (v w : LuaValue) :
    ((∃ d, Liconv_new env (.str s1) (.str s2) = some [.handle d]) ↔
      (env.iconv_open s1 s2).isSome)
    ∧ Liconv_new env (.str s1) (.str s2) ≠ none
    ∧ (checkstring v = none → Liconv_new env v w = none) := by
  refine ⟨?_, ?_, ?_⟩
  · cases hreg : env.iconv_open s1 s2 <;> simp [Liconv_new, checkstring, hreg]
  · cases hreg : env.iconv_open s1 s2 <;> simp [Liconv_new, checkstring, hreg]
  · intro hv
    simp [Liconv_new, hv]

/-- C8, witness: the amended statement at empty and concrete names and a
non-string first argument. -/
theorem c8_only_string_check_witness :
    ((∃ d, Liconv_new acceptAllEnv (.str []) (.str [65]) = some [.handle d]) ↔
      (acceptAllEnv.iconv_open [] [65]).isSome)
    ∧ Liconv_new acceptAllEnv (.str []) (.str [65]) ≠ none
    ∧ (checkstring .nil = none → Liconv_new acceptAllEnv .nil (.str [65]) = none) :=
  c8_only_string_check acceptAllEnv [] [65] .nil (.str [65])

/-- C9: when the library's release fails, close leaves the descriptor slot
untouched — the handle is not marked closed, and a later close that
succeeds does release and clear it — and close returns zero values (it
never raises and never returns an error) in every case. -/
theorem c9_close_failure_retryable {σ : Type} (s : σ) (closeOk : Bool) (cd : Option σ) :
    Liconv_close false (some s) = ⟨some s, true, []⟩
    ∧ Liconv_close true ((Liconv_close false (some s)).cd) = ⟨none, true, []⟩
    ∧ (Liconv_close closeOk cd).results = [] := by
  refine ⟨rfl, rfl, ?_⟩
  cases cd with
  | none => rfl
  | some s1 => cases closeOk <;> rfl

/-- C10: for every name pair the registry rejects, open returns no handle:
exactly the two values nil and the strerror description of the errno the
failed lookup left — no numeric code. -/
theorem c10_open_failure (env : OpenEnv) (s1 s2 : List Nat)
    (h : env.iconv_open s1 s2 = none) :
    Liconv_new env (.str s1) (.str s2) = some [.nil, .str (strerror env.errno)] := by
  simp [Liconv_new, checkstring, h]

/-- C10, witness: open against a registry that knows no names fails with
nil and the message. -/
theorem c10_open_failure_witness :
    rejectAllEnv.iconv_open [65] [66] = none
    ∧ Liconv_new rejectAllEnv (.str [65]) (.str [66]) =
        some [.nil, .str (strerror rejectAllEnv.errno)] :=
  ⟨rfl, c10_open_failure rejectAllEnv [65] [66] rfl⟩

end LuaIconv
